import Mathlib

/-!
Verification of the nginclaude dynamic-routing reverse proxy
(`src/vercel-proxy.ts`) against its natural-language specification.

The embedding models, from the source:
  * `RouteConfig` and `parseNginxConfig`'s sort comparator and sort
    (vercel-proxy.ts lines 14-54).  JavaScript's `Array.prototype.sort`
    (stable since ES2019; V8 uses binary-insertion sort on small arrays,
    placing each element after every element the comparator does not order
    strictly later) is modelled as a stable insertion sort in which element
    `x` is inserted before the first accumulator element `y` with
    `routeCmp x y < 0`.
  * the rule-based fallback scan `useRuleBasedFallback` (lines 78-110),
  * the WHATWG `new URL` constructor used at line 164 (modelled at the
    fidelity the routing decision observes: scheme, host:port, pathname,
    search; see `parseURL`),
  * the LLM routing middleware (lines 113-204) as a per-request decision
    function and, with an upstream-reachability oracle, as a forwarding
    flow including the `onError` fallback retry,
  * the `generateText` invocation (lines 155-158),
  * the status endpoint and its bypass check (lines 116-118, 207-214).
-/

/-- Route entry parsed from the nginx-style config
(vercel-proxy.ts lines 14-17). -/
structure RouteConfig where
  path : String
  target : String
deriving DecidableEq, Repr

/-- The sort comparator of vercel-proxy.ts lines 40-47:
root location `/` is sent to the end, otherwise longer paths come first. -/
def routeCmp (a b : RouteConfig) : Int :=
  if a.path = "/" then 1
  else if b.path = "/" then -1
  else (b.path.length : Int) - (a.path.length : Int)

/-- Stable insertion of `x` into an already-sorted accumulator: `x` is
placed before the first element `y` with `routeCmp x y < 0`, i.e. after
every element the comparator does not order strictly after `x` (the
placement V8's binary-insertion sort uses). -/
def insertRoute (x : RouteConfig) : List RouteConfig → List RouteConfig
  | [] => [x]
  | y :: ys => if routeCmp x y < 0 then x :: y :: ys else y :: insertRoute x ys

def sortRoutesAux : List RouteConfig → List RouteConfig → List RouteConfig
  | acc, [] => acc
  | acc, x :: xs => sortRoutesAux (insertRoute x acc) xs

/-- `routes.sort(comparator)` of vercel-proxy.ts lines 40-47. -/
def sortRoutes (l : List RouteConfig) : List RouteConfig :=
  sortRoutesAux [] l

/-- JavaScript `url.startsWith(p)` (vercel-proxy.ts line 85): an ordinary
string prefix test. -/
def jsStartsWith (s p : String) : Bool :=
  decide (s.data.take p.data.length = p.data)

/-- The first-match scan of `useRuleBasedFallback` (vercel-proxy.ts lines
82-89): first route whose path the url starts with. -/
def matchRoute (url : String) : List RouteConfig → Option String
  | [] => none
  | r :: rs => if jsStartsWith url r.path then some r.target else matchRoute url rs

/-- `parseNginxConfig` (vercel-proxy.ts lines 20-54).  File reading and the
regex extraction of `location ... proxy_pass ...;` pairs are effectful; the
argument is their result: `none` when reading or extraction throws (the
`catch` of line 50 then returns the empty route list), `some rs` the list
of extracted (path, target) pairs, which the function sorts. -/
def parseNginxConfig (extracted : Option (List RouteConfig)) : List RouteConfig :=
  match extracted with
  | none => []
  | some rs => sortRoutes rs

example : sortRoutes
    [⟨"/", "D"⟩, ⟨"/api", "A"⟩, ⟨"/static", "C"⟩, ⟨"/admin", "B"⟩]
    = [⟨"/static", "C"⟩, ⟨"/admin", "B"⟩, ⟨"/api", "A"⟩, ⟨"/", "D"⟩] := by decide

example : matchRoute "/api/users"
    [⟨"/static", "C"⟩, ⟨"/admin", "B"⟩, ⟨"/api", "A"⟩, ⟨"/", "D"⟩] = some "A" := by decide

example : matchRoute "/admin2"
    [⟨"/admin", "B"⟩, ⟨"/", "D"⟩] = some "B" := by decide

/-!
## Model of the WHATWG `new URL` constructor

vercel-proxy.ts line 164 parses the inference service's text with
`new URL(targetUrl)` and uses `protocol`, `host`, `pathname` and `search`
(lines 165-175).  The model below follows the WHATWG URL parser at the
fidelity those four components require: surrounding C0-control/space
characters are ignored, interior tabs and newlines removed, the scheme is
lowercased, special schemes take an authority (userinfo dropped, domain
lowercased, numeric port bounded by 65535 with the scheme's default port
removed), non-special schemes take either a `//` authority or an opaque
path.  Unmodelled niceties (IDNA, percent-decoding of hosts, dot-segment
path normalisation) are irrelevant to every statement proved here; `%` in
a domain is treated as a parse failure. -/

/-- The components of a parsed URL the proxy reads (vercel-proxy.ts
lines 164-175): `protocol` keeps the trailing `:`, `host` is
`hostname[:port]`, `search` is empty or starts with `?`. -/
structure URLRec where
  protocol : String
  host : String
  pathname : String
  search : String
deriving DecidableEq, Repr

def isC0OrSpace (c : Char) : Bool := c.toNat ≤ 32

def isTabOrNewline (c : Char) : Bool := c == '\t' || c == '\n' || c == '\r'

/-- WHATWG input preprocessing: strip leading/trailing C0 controls and
spaces, remove all interior tabs and newlines. -/
def urlPreprocess (l : List Char) : List Char :=
  (((l.dropWhile isC0OrSpace).reverse.dropWhile isC0OrSpace).reverse).filter
    (fun c => !(isTabOrNewline c))

def isSchemeChar (c : Char) : Bool :=
  c.isAlpha || c.isDigit || c == '+' || c == '-' || c == '.'

def splitSchemeAux : List Char → Option (List Char × List Char)
  | [] => none
  | c :: rest =>
    if c == ':' then some ([], rest)
    else if isSchemeChar c then (splitSchemeAux rest).map (fun p => (c :: p.1, p.2))
    else none

/-- Scheme state: an ASCII letter followed by scheme characters up to `:`. -/
def splitScheme (l : List Char) : Option (List Char × List Char) :=
  match l with
  | [] => none
  | c :: _ => if c.isAlpha then splitSchemeAux l else none

def specialSchemes : List String := ["ftp", "file", "http", "https", "ws", "wss"]

def defaultPort (scheme : String) : Option String :=
  if scheme = "ftp" then some "21"
  else if scheme = "http" then some "80"
  else if scheme = "https" then some "443"
  else if scheme = "ws" then some "80"
  else if scheme = "wss" then some "443"
  else none

/-- Forbidden host code points (WHATWG), with `%` also refused in domains
(percent-decoding of domains is not modelled). -/
def forbiddenHostChar (allowPct : Bool) (c : Char) : Bool :=
  c.toNat ≤ 32 || c == '#' || c == '/' || c == ':' || c == '<' || c == '>' ||
  c == '?' || c == '@' || c == '[' || c == '\\' || c == ']' || c == '^' ||
  c == '|' || (!allowPct && c == '%')

def digitsToNat (l : List Char) : Nat :=
  l.foldl (fun n c => n * 10 + (c.toNat - 48)) 0

/-- Host-and-port parsing of an authority component.  Userinfo (up to the
last `@`) is dropped, the port must be numeric and at most 65535, the
scheme's default port is removed; special schemes lowercase the domain.
Returns the serialised `hostname[:port]`, or `none` for an invalid host. -/
def parseHostPort (scheme : String) (auth : List Char) (allowEmpty special : Bool) :
    Option String :=
  let afterAt := (auth.reverse.takeWhile (fun c => c != '@')).reverse
  let h := afterAt.takeWhile (fun c => c != ':')
  let portRaw := afterAt.drop (h.length + 1)
  if h.isEmpty && !allowEmpty then none
  else if h.any (forbiddenHostChar (!special)) then none
  else
    let hostStr := String.mk (if special then h.map Char.toLower else h)
    if afterAt.length ≤ h.length then some hostStr
    else if portRaw.isEmpty then some hostStr
    else if portRaw.all Char.isDigit then
      let n := digitsToNat portRaw
      if n > 65535 then none
      else
        let p := toString n
        if defaultPort scheme = some p then some hostStr
        else some (hostStr ++ ":" ++ p)
    else none

def searchOf (l : List Char) : String :=
  match l with
  | '?' :: rest =>
    let q := rest.takeWhile (fun c => c != '#')
    if q.isEmpty then "" else "?" ++ String.mk q
  | _ => ""

def parseURLCore (l : List Char) : Option URLRec := do
  let (schemeRaw, rest) ← splitScheme l
  let scheme := String.mk (schemeRaw.map Char.toLower)
  if specialSchemes.contains scheme then
    let rest2 := rest.dropWhile (fun c => c == '/' || c == '\\')
    let auth := rest2.takeWhile
      (fun c => !(c == '/' || c == '\\' || c == '?' || c == '#'))
    let after := rest2.drop auth.length
    let host ← parseHostPort scheme auth (scheme == "file") true
    let rawPath := after.takeWhile (fun c => !(c == '?' || c == '#'))
    let afterPath := after.drop rawPath.length
    let pathname :=
      if rawPath.isEmpty then "/"
      else String.mk (rawPath.map (fun c => if c == '\\' then '/' else c))
    pure ⟨scheme ++ ":", host, pathname, searchOf afterPath⟩
  else
    match rest with
    | '/' :: '/' :: rest2 =>
      let auth := rest2.takeWhile (fun c => !(c == '/' || c == '?' || c == '#'))
      let after := rest2.drop auth.length
      let host ← parseHostPort scheme auth true false
      let rawPath := after.takeWhile (fun c => !(c == '?' || c == '#'))
      let afterPath := after.drop rawPath.length
      pure ⟨scheme ++ ":", host, String.mk rawPath, searchOf afterPath⟩
    | _ =>
      let rawPath := rest.takeWhile (fun c => !(c == '?' || c == '#'))
      let afterPath := rest.drop rawPath.length
      pure ⟨scheme ++ ":", "", String.mk rawPath, searchOf afterPath⟩

/-- `new URL(text)` (vercel-proxy.ts line 164): `some` a record of the
components the proxy reads, `none` when the constructor throws. -/
def parseURL (s : String) : Option URLRec :=
  parseURLCore (urlPreprocess s.data)

/-- `` `${targetUrlObj.protocol}//${targetUrlObj.host}` `` of
vercel-proxy.ts line 165: the target host the proxy forwards to. -/
def urlOrigin (u : URLRec) : String :=
  u.protocol ++ "//" ++ u.host

example : parseURL "http://localhost:8001/api/users"
    = some ⟨"http:", "localhost:8001", "/api/users", ""⟩ := by decide

example : parseURL "  http://localhost:8001/api/users?q=1  "
    = some ⟨"http:", "localhost:8001", "/api/users", "?q=1"⟩ := by decide

example : parseURL "not a url" = none := by decide

example : parseURL "I cannot decide" = none := by decide

example : parseURL "mailto:test@example.com"
    = some ⟨"mailto:", "", "test@example.com", ""⟩ := by decide

example : parseURL "http://" = none := by decide

example : parseURL "HTTP://LocalHost:80/x"
    = some ⟨"http:", "localhost", "/x", ""⟩ := by decide

/-!
## The routing decision engine

vercel-proxy.ts lines 113-204.  The outcome of the `generateText` call is
either its returned text or an AI-SDK error (the outer `catch` of line
198); the decision layer below (what target the request is proxied to, and
with which forwarded path) abstracts over upstream reachability, which the
forwarding layer `handleRequest` adds afterwards. -/

/-- Result of the `generateText` call: the returned text, or an AI SDK
error caught at vercel-proxy.ts line 198. -/
inductive InferOutcome where
  | text (s : String)
  | failure
deriving DecidableEq, Repr

/-- A routing decision: proxy to `target` forwarding `fwdPath`, or the 404
`No matching route found` response of vercel-proxy.ts line 93. -/
inductive Decision where
  | proxyTo (target fwdPath : String)
  | notFound
deriving DecidableEq, Repr

/-- The decision of `useRuleBasedFallback` (vercel-proxy.ts lines 78-110):
first matching route's target, forwarding the original url unmodified (the
fallback proxy has no `pathRewrite`); 404 when nothing matches. -/
def fallbackDecision (routes : List RouteConfig) (url : String) : Decision :=
  match matchRoute url routes with
  | some tg => .proxyTo tg url
  | none => .notFound

/-- The routing decision of the LLM middleware (vercel-proxy.ts lines
113-204): an AI SDK failure falls back to the rules (line 202); otherwise
the returned text is URL-parsed — on success the request is proxied to
`protocol//host` with the path rewritten to `pathname + search` (lines
164-188), on a parse failure the rule-based fallback decides (line 195). -/
def routingDecision (routes : List RouteConfig) (url : String)
    (infer : InferOutcome) : Decision :=
  match infer with
  | .failure => fallbackDecision routes url
  | .text s =>
    match parseURL s with
    | some u => .proxyTo (urlOrigin u) (u.pathname ++ u.search)
    | none => fallbackDecision routes url

/-- The DeterministicMatcher of spec §4.2, defined from the spec's words
for the refinement comparison: scan the (sorted) table in order, return
the first rule whose path the request path starts with, combined with the
original path and query unmodified; otherwise NoMatchingRoute. -/
def specScan (P : String) : List RouteConfig → Option RouteConfig
  | [] => none
  | r :: rs => if jsStartsWith P r.path then some r else specScan P rs

/-- Spec §4.2's matcher result as a decision (matched target with the
original path and query; NoMatchingRoute as the 404 outcome). -/
def specDeterministicMatcher (table : List RouteConfig) (P : String) : Decision :=
  match specScan P table with
  | some r => .proxyTo r.target P
  | none => .notFound

/-!
## The forwarding flow with upstream reachability

`up target` says whether forwarding to `target` succeeds; `false` stands
for a connection failure or timeout, which fires the proxy's `onError`
(vercel-proxy.ts lines 180-184) and, on the LLM path, re-routes through
`useRuleBasedFallback`.  The fallback proxy installs no `onError` of its
own, so a failing fallback upstream is left to http-proxy-middleware's
default error handling (`defaultProxyError` below); the `try/catch` of
lines 99-109 (500 on a synchronous proxy-creation failure) is not
reachable for the string targets modelled here. -/

inductive ResponseKind where
  | upstream (target fwdPath : String)
  | notFound
  | defaultProxyError
deriving DecidableEq, Repr

/-- The forwarding attempts made for one request (in order), and the
response the client ends with. -/
structure ForwardResult where
  attempts : List (String × String)
  response : ResponseKind
deriving DecidableEq, Repr

/-- `useRuleBasedFallback` (vercel-proxy.ts lines 78-110) run against the
upstream oracle. -/
def fallbackRun (routes : List RouteConfig) (url : String)
    (up : String → Bool) : ForwardResult :=
  match matchRoute url routes with
  | none => ⟨[], .notFound⟩
  | some tg =>
    if up tg then ⟨[(tg, url)], .upstream tg url⟩
    else ⟨[(tg, url)], .defaultProxyError⟩

/-- One request through the LLM middleware (vercel-proxy.ts lines
113-204) with upstream reachability: a valid inference URL is tried
first; its `onError` (connection failure) re-routes the request through
the rule-based fallback (lines 180-184). -/
def handleRequest (routes : List RouteConfig) (url : String)
    (infer : InferOutcome) (up : String → Bool) : ForwardResult :=
  match infer with
  | .failure => fallbackRun routes url up
  | .text s =>
    match parseURL s with
    | none => fallbackRun routes url up
    | some u =>
      let tgt := urlOrigin u
      let p := u.pathname ++ u.search
      if up tgt then ⟨[(tgt, p)], .upstream tgt p⟩
      else
        let fb := fallbackRun routes url up
        ⟨(tgt, p) :: fb.attempts, fb.response⟩

/-!
## The inference invocation, the status endpoint and the server loop
-/

/-- The argument object of the `generateText` call (vercel-proxy.ts lines
155-158).  The AI SDK's call settings accept an optional `abortSignal`
(the SDK's cancellation/timeout mechanism, here the abort delay in
milliseconds); the call site passes only `model` and `prompt`. -/
structure GenerateTextArgs where
  model : String
  prompt : String
  abortSignal : Option Nat
deriving DecidableEq, Repr

/-- The exact invocation of vercel-proxy.ts lines 155-158: model
`claude-3-haiku-20240307`, the built prompt, and nothing else — no
`abortSignal`, no timeout setting. -/
def inferenceCallArgs (prompt : String) : GenerateTextArgs :=
  { model := "claude-3-haiku-20240307", prompt := prompt, abortSignal := none }

/-- The module state of vercel-proxy.ts: the route table loaded once at
startup (line 61) and never reassigned. -/
structure ServerState where
  routes : List RouteConfig
deriving DecidableEq, Repr

/-- One inbound request as the middleware observes it: `req.url`, the
inference outcome for it, and the upstream reachability during it. -/
structure ReqInput where
  url : String
  infer : InferOutcome
  up : String → Bool

inductive HttpResponse where
  | statusPage (routes : List String)
  | engine (r : ForwardResult)

/-- The `routes` array of the `/proxy-status` JSON (vercel-proxy.ts lines
207-214): the loaded routes formatted as `path => target`. -/
def statusSnapshot (s : ServerState) : List String :=
  s.routes.map (fun r => r.path ++ " => " ++ r.target)

/-- Serving one request: the LLM middleware skips exactly the url
`'/proxy-status'` (strict string equality, vercel-proxy.ts line 116),
handing it to the status endpoint; every other url goes through the
routing engine.  No handler mutates the state. -/
def serveOne (s : ServerState) (q : ReqInput) : HttpResponse × ServerState :=
  if q.url = "/proxy-status" then (.statusPage (statusSnapshot s), s)
  else (.engine (handleRequest s.routes q.url q.infer q.up), s)

/-- The server loop: requests served in order against the startup state. -/
def serveAll (s : ServerState) : List ReqInput → ServerState
  | [] => s
  | q :: qs => serveAll (serveOne s q).2 qs

/-- The route table of the repository's own `nginclaude-proxy.conf`
(mirrored by `src/unnamed/part_001`): the concrete table used by the
witnesses below. -/
def demoRoutes : List RouteConfig :=
  sortRoutes [⟨"/api", "http://localhost:8001"⟩, ⟨"/admin", "http://localhost:8003"⟩,
    ⟨"/static", "http://localhost:8004"⟩, ⟨"/", "http://localhost:8002"⟩]

/-- An upstream oracle under which only `http://localhost:8001` is
reachable. -/
def upDemo (t : String) : Bool := t == "http://localhost:8001"

example : demoRoutes = [⟨"/static", "http://localhost:8004"⟩,
  ⟨"/admin", "http://localhost:8003"⟩, ⟨"/api", "http://localhost:8001"⟩,
  ⟨"/", "http://localhost:8002"⟩] := by decide

example : routingDecision demoRoutes "/api/users" (.text "not a url")
    = .proxyTo "http://localhost:8001" "/api/users" := by decide

example : handleRequest demoRoutes "/api/x" (.text "http://localhost:9999/api/x") upDemo
    = ⟨[("http://localhost:9999", "/api/x"), ("http://localhost:8001", "/api/x")],
       .upstream "http://localhost:8001" "/api/x"⟩ := by decide

/-!
## Properties of the route sort
-/

/-- The order the sorted table satisfies between an earlier element `a`
and a later element `b`: the comparator does not demand `b` strictly
before `a`. -/
def SortedR (a b : RouteConfig) : Prop := 0 ≤ routeCmp b a

theorem insertRoute_perm (x : RouteConfig) (l : List RouteConfig) :
    (insertRoute x l).Perm (x :: l) := by
  induction l with
  | nil => simp [insertRoute]
  | cons y ys ih =>
    by_cases h : routeCmp x y < 0
    · simp [insertRoute, h]
    · simp only [insertRoute, if_neg h]
      exact ((ih.cons y).trans (List.Perm.swap x y ys))

theorem mem_insertRoute {z x : RouteConfig} {l : List RouteConfig}
    (h : z ∈ insertRoute x l) : z = x ∨ z ∈ l := by
  have := (insertRoute_perm x l).mem_iff.mp h
  simpa using this

theorem sortedR_of_lt {x y : RouteConfig} (h : routeCmp x y < 0) : SortedR x y := by
  unfold routeCmp at h
  unfold SortedR routeCmp
  by_cases hx : x.path = "/" <;> by_cases hy : y.path = "/" <;> simp [hx, hy] at h ⊢ <;> omega

theorem sortedR_of_not_lt {x y : RouteConfig} (h : ¬ routeCmp x y < 0) : SortedR y x := by
  unfold SortedR
  omega

theorem sortedR_trans_of_lt {x y z : RouteConfig} (hxy : routeCmp x y < 0)
    (hyz : SortedR y z) : SortedR x z := by
  unfold routeCmp at hxy
  unfold SortedR routeCmp at hyz ⊢
  by_cases hx : x.path = "/" <;> by_cases hy : y.path = "/" <;>
    by_cases hz : z.path = "/" <;> simp [hx, hy, hz] at hxy hyz ⊢ <;> omega

theorem insertRoute_pairwise {x : RouteConfig} {l : List RouteConfig}
    (h : l.Pairwise SortedR) : (insertRoute x l).Pairwise SortedR := by
  induction l with
  | nil => simp [insertRoute]
  | cons y ys ih =>
    rcases List.pairwise_cons.mp h with ⟨hy, hys⟩
    by_cases hlt : routeCmp x y < 0
    · simp only [insertRoute, if_pos hlt]
      refine List.pairwise_cons.mpr ⟨?_, h⟩
      intro z hz
      rcases List.mem_cons.mp hz with rfl | hz
      · exact sortedR_of_lt hlt
      · exact sortedR_trans_of_lt hlt (hy z hz)
    · simp only [insertRoute, if_neg hlt]
      refine List.pairwise_cons.mpr ⟨?_, ih hys⟩
      intro z hz
      rcases mem_insertRoute hz with rfl | hz
      · exact sortedR_of_not_lt hlt
      · exact hy z hz

theorem sortRoutesAux_pairwise (l : List RouteConfig) :
    ∀ acc : List RouteConfig, acc.Pairwise SortedR →
      (sortRoutesAux acc l).Pairwise SortedR := by
  induction l with
  | nil => intro acc h; exact h
  | cons x xs ih =>
    intro acc h
    exact ih (insertRoute x acc) (insertRoute_pairwise h)

theorem sortRoutes_pairwise (l : List RouteConfig) :
    (sortRoutes l).Pairwise SortedR :=
  sortRoutesAux_pairwise l [] (by simp)

theorem sortRoutesAux_perm (l : List RouteConfig) :
    ∀ acc : List RouteConfig, (sortRoutesAux acc l).Perm (acc ++ l) := by
  induction l with
  | nil => intro acc; simp [sortRoutesAux]
  | cons x xs ih =>
    intro acc
    have h1 : (sortRoutesAux (insertRoute x acc) xs).Perm (insertRoute x acc ++ xs) :=
      ih (insertRoute x acc)
    have h2 : (insertRoute x acc ++ xs).Perm ((x :: acc) ++ xs) :=
      (insertRoute_perm x acc).append_right xs
    have h3 : (acc ++ x :: xs).Perm (x :: (acc ++ xs)) := List.perm_middle
    exact (h1.trans h2).trans h3.symm

theorem sortRoutes_perm (l : List RouteConfig) : (sortRoutes l).Perm l := by
  simpa using sortRoutesAux_perm l []

theorem insertRoute_append_last {x : RouteConfig} {l : List RouteConfig}
    (h : ∀ y ∈ l, ¬ routeCmp x y < 0) : insertRoute x l = l ++ [x] := by
  induction l with
  | nil => rfl
  | cons y ys ih =>
    have hy : ¬ routeCmp x y < 0 := h y (List.mem_cons_self y ys)
    simp only [insertRoute, if_neg hy, List.cons_append]
    exact congrArg (y :: ·) (ih fun z hz => h z (List.mem_cons_of_mem y hz))

theorem sortRoutesAux_of_pairwise (l : List RouteConfig) :
    ∀ acc : List RouteConfig, (acc ++ l).Pairwise SortedR →
      sortRoutesAux acc l = acc ++ l := by
  induction l with
  | nil => intro acc _; simp [sortRoutesAux]
  | cons x xs ih =>
    intro acc h
    have hacc : ∀ y ∈ acc, ¬ routeCmp x y < 0 := by
      intro y hy
      have hR : SortedR y x :=
        (List.pairwise_append.mp h).2.2 y hy x (List.mem_cons_self x xs)
      unfold SortedR at hR
      omega
    have hins : insertRoute x acc = acc ++ [x] := insertRoute_append_last hacc
    have : sortRoutesAux (acc ++ [x]) xs = (acc ++ [x]) ++ xs := by
      apply ih
      simpa using h
    calc sortRoutesAux acc (x :: xs) = sortRoutesAux (acc ++ [x]) xs := by
          simp [sortRoutesAux, hins]
      _ = (acc ++ [x]) ++ xs := this
      _ = acc ++ x :: xs := by simp

theorem sortRoutes_of_pairwise {l : List RouteConfig}
    (h : l.Pairwise SortedR) : sortRoutes l = l := by
  have := sortRoutesAux_of_pairwise l [] (by simpa using h)
  simpa [sortRoutes] using this

theorem sortRoutes_idem (l : List RouteConfig) :
    sortRoutes (sortRoutes l) = sortRoutes l :=
  sortRoutes_of_pairwise (sortRoutes_pairwise l)

/-- The rules with path `/` (the class the comparator sends last). -/
def isSlashRoute (r : RouteConfig) : Bool := r.path == "/"

/-- The non-`/` rules whose path has length `n` (the rules the comparator
ties, i.e. leaves in configuration order). -/
def isLenRoute (n : Nat) (r : RouteConfig) : Bool :=
  !(r.path == "/") && r.path.length == n

theorem insertRoute_filter_of_neg {p : RouteConfig → Bool} {x : RouteConfig}
    (hx : p x = false) (l : List RouteConfig) :
    (insertRoute x l).filter p = l.filter p := by
  induction l with
  | nil => simp [insertRoute, hx]
  | cons y ys ih =>
    by_cases h : routeCmp x y < 0
    · simp [insertRoute, h, hx]
    · simp only [insertRoute, if_neg h, List.filter_cons]
      rw [ih]

theorem routeCmp_slash_left {x y : RouteConfig} (hx : x.path = "/") :
    routeCmp x y = 1 := by
  simp [routeCmp, hx]

theorem sortRoutesAux_filter_slash (l : List RouteConfig) :
    ∀ acc : List RouteConfig,
      (sortRoutesAux acc l).filter isSlashRoute
        = acc.filter isSlashRoute ++ l.filter isSlashRoute := by
  induction l with
  | nil => intro acc; simp [sortRoutesAux]
  | cons x xs ih =>
    intro acc
    by_cases hx : x.path = "/"
    · have hins : insertRoute x acc = acc ++ [x] :=
        insertRoute_append_last (fun y _ => by simp [routeCmp_slash_left hx])
      have hxs : isSlashRoute x = true := by simp [isSlashRoute, hx]
      calc (sortRoutesAux acc (x :: xs)).filter isSlashRoute
          = (insertRoute x acc).filter isSlashRoute ++ xs.filter isSlashRoute := ih _
        _ = (acc.filter isSlashRoute ++ [x]) ++ xs.filter isSlashRoute := by
            simp [hins, List.filter_append, hxs]
        _ = acc.filter isSlashRoute ++ (x :: xs).filter isSlashRoute := by
            simp [List.filter_cons, hxs]
    · have hxs : isSlashRoute x = false := by simp [isSlashRoute, hx]
      calc (sortRoutesAux acc (x :: xs)).filter isSlashRoute
          = (insertRoute x acc).filter isSlashRoute ++ xs.filter isSlashRoute := ih _
        _ = acc.filter isSlashRoute ++ (x :: xs).filter isSlashRoute := by
            rw [insertRoute_filter_of_neg hxs]
            simp [List.filter_cons, hxs]

theorem insertRoute_filter_class {n : Nat} {x : RouteConfig} {acc : List RouteConfig}
    (hacc : acc.Pairwise SortedR) (hx : isLenRoute n x = true) :
    (insertRoute x acc).filter (isLenRoute n) = acc.filter (isLenRoute n) ++ [x] := by
  have hxne : ¬ x.path = "/" := by
    simp [isLenRoute] at hx; exact fun h => by simp [h] at hx
  have hxlen : x.path.length = n := by
    simp [isLenRoute] at hx; exact hx.2
  induction acc with
  | nil => simp [insertRoute, hx]
  | cons y ys ih =>
    rcases List.pairwise_cons.mp hacc with ⟨hy, hys⟩
    by_cases hlt : routeCmp x y < 0
    · simp only [insertRoute, if_pos hlt]
      have hnone : ∀ z ∈ y :: ys, isLenRoute n z = false := by
        intro z hz
        have hzR : z = y ∨ SortedR y z := by
          rcases List.mem_cons.mp hz with rfl | hz
          · exact Or.inl rfl
          · exact Or.inr (hy z hz)
        by_cases hzs : z.path = "/"
        · simp [isLenRoute, hzs]
        · have hzlen : z.path.length < n := by
            unfold routeCmp at hlt
            rcases hzR with rfl | hzR
            · simp [hxne, hzs] at hlt
              omega
            · unfold SortedR routeCmp at hzR
              by_cases hys2 : y.path = "/"
              · simp [hzs, hys2] at hzR
              · simp [hxne, hys2] at hlt
                simp [hzs, hys2] at hzR
                omega
          simp [isLenRoute, hzs]
          omega
      have hfil : (y :: ys).filter (isLenRoute n) = [] :=
        List.filter_eq_nil_iff.mpr (fun a ha => by simp [hnone a ha])
      simp [List.filter_cons, hx, hfil]
    · simp only [insertRoute, if_neg hlt, List.filter_cons]
      rw [ih hys]
      by_cases hyc : isLenRoute n y = true
      · simp [hyc]
      · simp [eq_false_of_ne_true hyc]

theorem sortRoutesAux_filter_class (n : Nat) (l : List RouteConfig) :
    ∀ acc : List RouteConfig, acc.Pairwise SortedR →
      (sortRoutesAux acc l).filter (isLenRoute n)
        = acc.filter (isLenRoute n) ++ l.filter (isLenRoute n) := by
  induction l with
  | nil => intro acc _; simp [sortRoutesAux]
  | cons x xs ih =>
    intro acc hacc
    by_cases hx : isLenRoute n x = true
    · calc (sortRoutesAux acc (x :: xs)).filter (isLenRoute n)
          = (insertRoute x acc).filter (isLenRoute n) ++ xs.filter (isLenRoute n) :=
            ih _ (insertRoute_pairwise hacc)
        _ = (acc.filter (isLenRoute n) ++ [x]) ++ xs.filter (isLenRoute n) := by
            rw [insertRoute_filter_class hacc hx]
        _ = acc.filter (isLenRoute n) ++ (x :: xs).filter (isLenRoute n) := by
            simp [List.filter_cons, hx]
    · have hx' : isLenRoute n x = false := eq_false_of_ne_true hx
      calc (sortRoutesAux acc (x :: xs)).filter (isLenRoute n)
          = (insertRoute x acc).filter (isLenRoute n) ++ xs.filter (isLenRoute n) :=
            ih _ (insertRoute_pairwise hacc)
        _ = acc.filter (isLenRoute n) ++ (x :: xs).filter (isLenRoute n) := by
            rw [insertRoute_filter_of_neg hx']
            simp [List.filter_cons, hx']

theorem sortRoutes_filter_slash (l : List RouteConfig) :
    (sortRoutes l).filter isSlashRoute = l.filter isSlashRoute := by
  simpa using sortRoutesAux_filter_slash l []

theorem sortRoutes_filter_class (n : Nat) (l : List RouteConfig) :
    (sortRoutes l).filter (isLenRoute n) = l.filter (isLenRoute n) := by
  simpa using sortRoutesAux_filter_class n l [] (by simp)

/-- The order the spec ascribes to a sorted table, between an earlier
element `a` and a later element `b`: a `/` rule is followed only by `/`
rules, and a non-`/` rule only by `/` rules or rules of no greater
length. -/
def sortSpecRel (a b : RouteConfig) : Prop :=
  if a.path = "/" then b.path = "/"
  else b.path = "/" ∨ b.path.length ≤ a.path.length

theorem sortedR_imp_spec {a b : RouteConfig} (h : SortedR a b) : sortSpecRel a b := by
  unfold SortedR routeCmp at h
  unfold sortSpecRel
  by_cases ha : a.path = "/" <;> by_cases hb : b.path = "/" <;>
    simp [ha, hb] at h ⊢ <;> omega

/-- C6: sorting a RouteTable is idempotent, and the sorted order is
deterministic: every `/` rule sorts last and longer paths sort before
shorter ones (`sortSpecRel` pairwise), while the `/` rules among
themselves and the non-`/` rules of each path length keep their original
configuration order (the filters are preserved); the sorted table is a
permutation of the input.  This holds for every rule list, duplicates and
repeated `/` rules included. -/
theorem sortRoutes_idem_deterministic (l : List RouteConfig) :
    sortRoutes (sortRoutes l) = sortRoutes l
    ∧ (sortRoutes l).Perm l
    ∧ (sortRoutes l).Pairwise sortSpecRel
    ∧ (sortRoutes l).filter isSlashRoute = l.filter isSlashRoute
    ∧ ∀ n : Nat, (sortRoutes l).filter (isLenRoute n) = l.filter (isLenRoute n) :=
  ⟨sortRoutes_idem l, sortRoutes_perm l,
    (sortRoutes_pairwise l).imp (fun h => sortedR_imp_spec h),
    sortRoutes_filter_slash l, fun n => sortRoutes_filter_class n l⟩

/-!
## Properties of the deterministic matcher
-/

theorem matchRoute_eq_specScan (P : String) (l : List RouteConfig) :
    matchRoute P l = (specScan P l).map RouteConfig.target := by
  induction l with
  | nil => rfl
  | cons r rs ih =>
    by_cases h : jsStartsWith P r.path
    · simp [matchRoute, specScan, h]
    · simp [matchRoute, specScan, h, ih]

theorem matchRoute_eq_filter_head (P : String) (l : List RouteConfig) :
    matchRoute P l
      = ((l.filter (fun r => jsStartsWith P r.path)).head?).map RouteConfig.target := by
  induction l with
  | nil => rfl
  | cons r rs ih =>
    by_cases h : jsStartsWith P r.path
    · simp [matchRoute, List.filter_cons, h]
    · simp [matchRoute, List.filter_cons, h, ih]

theorem jsStartsWith_length_le {P s : String} (h : jsStartsWith P s = true) :
    s.length ≤ P.length := by
  unfold jsStartsWith at h
  have hd : P.data.take s.data.length = s.data := of_decide_eq_true h
  have := congrArg List.length hd
  rw [List.length_take] at this
  show s.data.length ≤ P.data.length
  omega

theorem jsStartsWith_eq_of_length_eq {P s t : String}
    (hs : jsStartsWith P s = true) (ht : jsStartsWith P t = true)
    (hlen : s.length = t.length) : s = t := by
  unfold jsStartsWith at hs ht
  have hds : P.data.take s.data.length = s.data := of_decide_eq_true hs
  have hdt : P.data.take t.data.length = t.data := of_decide_eq_true ht
  have hl : s.data.length = t.data.length := hlen
  have hst : s.data = t.data := by rw [← hds, ← hdt, hl]
  exact String.ext hst

/-- The head of a `SortedR`-pairwise list of rules with non-empty paths
has maximal path length among its members. -/
theorem head_length_max {m : List RouteConfig} {a b : RouteConfig}
    (hp : m.Pairwise SortedR) (hh : m.head? = some a) (hb : b ∈ m)
    (hane : a.path ≠ "") : b.path.length ≤ a.path.length := by
  cases m with
  | nil => simp at hh
  | cons c t =>
    have hac : c = a := by simpa using hh
    subst hac
    rcases List.mem_cons.mp hb with rfl | hbt
    · exact le_rfl
    · have hR : SortedR c b := (List.pairwise_cons.mp hp).1 b hbt
      unfold SortedR routeCmp at hR
      by_cases hbs : b.path = "/"
      · have h1 : 1 ≤ c.path.length := by
          cases hcd : c.path.length with
          | zero =>
            exfalso
            exact hane (String.ext (List.length_eq_zero.mp hcd))
          | succ k => omega
        have hb1 : b.path.length = 1 := by rw [hbs]; rfl
        omega
      · by_cases hcs : c.path = "/"
        · simp [hbs, hcs] at hR
        · simp [hbs, hcs] at hR
          omega

/-- The first match in the sorted table is a match of maximal path
length (paths assumed non-empty, as the config extraction guarantees). -/
theorem sorted_first_match_spec {l : List RouteConfig} (hne : ∀ r ∈ l, r.path ≠ "")
    {P : String} {a : RouteConfig}
    (hH : ((sortRoutes l).filter (fun r => jsStartsWith P r.path)).head? = some a) :
    a ∈ l ∧ jsStartsWith P a.path = true
      ∧ ∀ b ∈ l, jsStartsWith P b.path = true → b.path.length ≤ a.path.length := by
  have hpair : ((sortRoutes l).filter (fun r => jsStartsWith P r.path)).Pairwise SortedR :=
    (sortRoutes_pairwise l).sublist (List.filter_sublist _)
  have haM : a ∈ (sortRoutes l).filter (fun r => jsStartsWith P r.path) := by
    cases hc : (sortRoutes l).filter (fun r => jsStartsWith P r.path) with
    | nil => rw [hc] at hH; simp at hH
    | cons c t =>
      rw [hc] at hH
      have hca : c = a := by simpa using hH
      rw [← hca]
      exact List.mem_cons_self c t
  have ha2 := List.mem_filter.mp haM
  have haL : a ∈ l := (sortRoutes_perm l).mem_iff.mp ha2.1
  refine ⟨haL, ha2.2, ?_⟩
  intro b hb hbP
  have hbM : b ∈ (sortRoutes l).filter (fun r => jsStartsWith P r.path) :=
    List.mem_filter.mpr ⟨(sortRoutes_perm l).mem_iff.mpr hb, hbP⟩
  exact head_length_max hpair hH hbM (hne a haL)

/-- For tables of pairwise-distinct, non-empty paths, the deterministic
matcher on the sorted table is invariant under any permutation of the
configuration order. -/
theorem matchRoute_sorted_perm_invariant {l l' : List RouteConfig}
    (hperm : l.Perm l') (hnd : (l.map RouteConfig.path).Nodup)
    (hne : ∀ r ∈ l, r.path ≠ "") (P : String) :
    matchRoute P (sortRoutes l) = matchRoute P (sortRoutes l') := by
  have hne' : ∀ r ∈ l', r.path ≠ "" := fun r hr => hne r (hperm.mem_iff.mpr hr)
  rw [matchRoute_eq_filter_head, matchRoute_eq_filter_head]
  have hfil : ((sortRoutes l).filter (fun r => jsStartsWith P r.path)).Perm
      ((sortRoutes l').filter (fun r => jsStartsWith P r.path)) :=
    (((sortRoutes_perm l).filter _).trans (hperm.filter _)).trans
      ((sortRoutes_perm l').filter _).symm
  cases hH : ((sortRoutes l).filter (fun r => jsStartsWith P r.path)).head? with
  | none =>
    have h0 : (sortRoutes l).filter (fun r => jsStartsWith P r.path) = [] :=
      List.head?_eq_none_iff.mp hH
    have h1 : (sortRoutes l').filter (fun r => jsStartsWith P r.path) = [] :=
      (h0 ▸ hfil).symm.eq_nil
    simp [h1]
  | some a =>
    obtain ⟨haL, haP, hamax⟩ := sorted_first_match_spec hne hH
    cases hH' : ((sortRoutes l').filter (fun r => jsStartsWith P r.path)).head? with
    | none =>
      exfalso
      have h1 : (sortRoutes l').filter (fun r => jsStartsWith P r.path) = [] :=
        List.head?_eq_none_iff.mp hH'
      have h0 : (sortRoutes l).filter (fun r => jsStartsWith P r.path) = [] :=
        (h1 ▸ hfil).eq_nil
      rw [h0] at hH
      simp at hH
    | some b =>
      obtain ⟨hbL', hbP, hbmax⟩ := sorted_first_match_spec hne' hH'
      have hbL : b ∈ l := hperm.mem_iff.mpr hbL'
      have haL' : a ∈ l' := hperm.mem_iff.mp haL
      have hlen : a.path.length = b.path.length :=
        le_antisymm (hbmax a haL' haP) (hamax b hbL hbP)
      have hpath : a.path = b.path := jsStartsWith_eq_of_length_eq haP hbP hlen
      have hab : a = b := List.inj_on_of_nodup_map hnd haL hbL hpath
      simp [hab]

/-!
## Claim theorems: the deterministic matcher (C3)
-/

/-- C3 fails as stated: two rules with the same (equal-length) path but
different targets select differently after permutation — the matcher
result is not invariant under permuting equal-length rules. -/
theorem matcher_perm_counterexample :
    ([⟨"/a", "A"⟩, ⟨"/a", "B"⟩] : List RouteConfig).Perm [⟨"/a", "B"⟩, ⟨"/a", "A"⟩]
    ∧ ([⟨"/a", "A"⟩, ⟨"/a", "B"⟩] : List RouteConfig).map
        (fun r => r.path.length) = [2, 2]
    ∧ matchRoute "/a" (sortRoutes [⟨"/a", "A"⟩, ⟨"/a", "B"⟩])
        ≠ matchRoute "/a" (sortRoutes [⟨"/a", "B"⟩, ⟨"/a", "A"⟩]) :=
  ⟨by decide, by decide, by decide⟩

/-- C3 (amended): for tables with pairwise-distinct, non-empty paths the
matcher's result on the sorted table is invariant under permuting the
configuration order; whenever rules match the path, the selected rule is
a matching rule of maximal path length; and the match test is an ordinary
string-prefix test (`/admin2` matches rule `/admin`). -/
theorem matcher_invariant_longest (l l' : List RouteConfig)
    (hperm : l.Perm l') (hnd : (l.map RouteConfig.path).Nodup)
    (hne : ∀ r ∈ l, r.path ≠ "") (P : String) :
    matchRoute P (sortRoutes l) = matchRoute P (sortRoutes l')
    ∧ (∀ r ∈ l, jsStartsWith P r.path = true →
        ∃ m, m ∈ l ∧ jsStartsWith P m.path = true
          ∧ r.path.length ≤ m.path.length
          ∧ matchRoute P (sortRoutes l) = some m.target)
    ∧ jsStartsWith "/admin2" "/admin" = true := by
  refine ⟨matchRoute_sorted_perm_invariant hperm hnd hne P, ?_, by decide⟩
  intro r hr hrP
  have hrM : r ∈ (sortRoutes l).filter (fun x => jsStartsWith P x.path) :=
    List.mem_filter.mpr ⟨(sortRoutes_perm l).mem_iff.mpr hr, hrP⟩
  cases hc : (sortRoutes l).filter (fun x => jsStartsWith P x.path) with
  | nil => rw [hc] at hrM; simp at hrM
  | cons a t =>
    have hH : ((sortRoutes l).filter (fun x => jsStartsWith P x.path)).head? = some a := by
      rw [hc]; rfl
    obtain ⟨haL, haP, hamax⟩ := sorted_first_match_spec hne hH
    refine ⟨a, haL, haP, hamax r hr hrP, ?_⟩
    rw [matchRoute_eq_filter_head, hH]
    rfl

/-- Witness for `matcher_invariant_longest` at a concrete table, its
reversal and a concrete path. -/
theorem matcher_invariant_longest_witness :
    matchRoute "/api/users"
      (sortRoutes [⟨"/api", "http://localhost:8001"⟩, ⟨"/", "http://localhost:8002"⟩])
      = matchRoute "/api/users"
        (sortRoutes [⟨"/", "http://localhost:8002"⟩, ⟨"/api", "http://localhost:8001"⟩])
    ∧ matchRoute "/api/users"
        (sortRoutes [⟨"/api", "http://localhost:8001"⟩, ⟨"/", "http://localhost:8002"⟩])
      = some "http://localhost:8001" :=
  ⟨(matcher_invariant_longest
      [⟨"/api", "http://localhost:8001"⟩, ⟨"/", "http://localhost:8002"⟩]
      [⟨"/", "http://localhost:8002"⟩, ⟨"/api", "http://localhost:8001"⟩]
      (by decide) (by decide) (by decide) "/api/users").1, by decide⟩

/-!
## Claim theorems: the decision engine (C1, C2)
-/

/-- C1: when the inference text does not parse as a URL, the engine's
final decision (target and forwarded path) is exactly the
DeterministicMatcher's decision for the same request on the same table. -/
theorem inference_malformed_refines_matcher (table : List RouteConfig) (url t : String)
    (h : parseURL t = none) :
    routingDecision table url (.text t) = specDeterministicMatcher table url := by
  simp only [routingDecision]
  rw [h]
  unfold fallbackDecision specDeterministicMatcher
  rw [matchRoute_eq_specScan]
  cases specScan url table <;> rfl

/-- Witness for `inference_malformed_refines_matcher`: malformed
inference text on the repository's own table. -/
theorem inference_malformed_refines_matcher_witness :
    parseURL "not a url" = none
    ∧ routingDecision demoRoutes "/api/users" (.text "not a url")
        = specDeterministicMatcher demoRoutes "/api/users" :=
  ⟨by decide,
    inference_malformed_refines_matcher demoRoutes "/api/users" "not a url" (by decide)⟩

/-- C2: when the inference text parses as an absolute URL, the engine
routes to that URL's host with the URL's own path and query, regardless
of the route table — the decision is the same under every table, so the
deterministic matcher is not consulted. -/
theorem inference_url_trusted (table table' : List RouteConfig) (url t : String)
    (u : URLRec) (h : parseURL t = some u) :
    routingDecision table url (.text t) = .proxyTo (urlOrigin u) (u.pathname ++ u.search)
    ∧ routingDecision table url (.text t) = routingDecision table' url (.text t) := by
  simp only [routingDecision]
  rw [h]
  exact ⟨rfl, rfl⟩

/-- Witness for `inference_url_trusted`: a URL whose host appears in no
rule of the table is still honored. -/
theorem inference_url_trusted_witness :
    parseURL "http://localhost:9999/zzz" = some ⟨"http:", "localhost:9999", "/zzz", ""⟩
    ∧ (demoRoutes.map RouteConfig.target).contains "http://localhost:9999" = false
    ∧ routingDecision demoRoutes "/abc" (.text "http://localhost:9999/zzz")
        = .proxyTo "http://localhost:9999" "/zzz" :=
  ⟨by decide, by decide,
    (inference_url_trusted demoRoutes [] "/abc" "http://localhost:9999/zzz"
      ⟨"http:", "localhost:9999", "/zzz", ""⟩ (by decide)).1.trans (by decide)⟩

/-!
## Claim theorems: inference response parsing (C5)
-/

/-- JavaScript `String.prototype.trim` whitespace (src/index.js line 75):
space, tab, LF, VT, FF, CR, NBSP, BOM and the line/paragraph separators. -/
def isJsWhitespace (c : Char) : Bool :=
  c == ' ' || c == '\t' || c == '\n' || c == '\r' || c.toNat = 11 || c.toNat = 12 ||
  c.toNat = 0xA0 || c.toNat = 0xFEFF || c.toNat = 0x2028 || c.toNat = 0x2029

/-- JavaScript `text.trim()` as `src/index.js` applies it (the TypeScript
engine of vercel-proxy.ts applies no trim at all). -/
def jsTrim (s : String) : String :=
  String.mk (((s.data.dropWhile isJsWhitespace).reverse.dropWhile isJsWhitespace).reverse)

theorem append_colon_ne_empty (s : String) : s ++ ":" ≠ "" := by
  intro h
  have hd := congrArg String.data h
  rw [String.data_append] at hd
  simp at hd

/-- Every successfully parsed URL carries a scheme: its `protocol` ends
in `:` and is non-empty. -/
theorem parseURL_protocol_ne_empty {t : String} {u : URLRec}
    (h : parseURL t = some u) : u.protocol ≠ "" := by
  unfold parseURL parseURLCore at h
  cases hs : splitScheme (urlPreprocess t.data) with
  | none => rw [hs] at h; simp at h
  | some pr =>
    obtain ⟨schemeRaw, rest⟩ := pr
    rw [hs] at h
    simp only [Option.bind_eq_bind, Option.some_bind] at h
    split at h
    · rcases Option.bind_eq_some.mp h with ⟨hostv, hh1, hh2⟩
      simp only [Option.pure_def, Option.some_inj] at hh2
      rw [← hh2]
      exact append_colon_ne_empty _
    · split at h
      · rcases Option.bind_eq_some.mp h with ⟨hostv, hh1, hh2⟩
        simp only [Option.pure_def, Option.some_inj] at hh2
        rw [← hh2]
        exact append_colon_ne_empty _
      · simp only [Option.pure_def, Option.some_inj] at h
        rw [← h]
        exact append_colon_ne_empty _

/-- C5 fails as stated, on two counts at concrete inputs: (1) the text
`mailto:test@example.com` is accepted (it parses as an absolute URL) even
though the trimmed text has no host, so acceptance is not equivalent to
"parses with scheme and host"; (2) the engine applies no trim before
parsing: a NBSP-preceded URL whose trim parses fine is rejected. -/
theorem inference_parse_counterexample :
    (parseURL "mailto:test@example.com").isSome = true
    ∧ (parseURL (jsTrim "mailto:test@example.com")).map URLRec.host = some ""
    ∧ parseURL "\u00A0http://localhost:8001/" = none
    ∧ (parseURL (jsTrim "\u00A0http://localhost:8001/")).isSome = true :=
  ⟨by decide, by decide, by decide, by decide⟩

/-- C5 (amended): the TypeScript engine applies no separate trim — the
URL parser itself ignores surrounding C0-control/space characters — and a
returned text is accepted exactly when it parses as an absolute URL with
a scheme (a host is not required: non-special schemes parse without one);
any text that fails this parse falls back to rule-based routing and is
never used as a routing target. -/
theorem inference_parse_contract (routes : List RouteConfig) (url t : String) :
    (∀ u, parseURL t = some u →
      u.protocol ≠ ""
        ∧ routingDecision routes url (.text t) = .proxyTo (urlOrigin u) (u.pathname ++ u.search))
    ∧ (parseURL t = none →
        routingDecision routes url (.text t) = fallbackDecision routes url) := by
  constructor
  · intro u hu
    refine ⟨parseURL_protocol_ne_empty hu, ?_⟩
    simp only [routingDecision]
    rw [hu]
  · intro hn
    simp only [routingDecision]
    rw [hn]

/-- Witness for `inference_parse_contract`: both branches discharged at
concrete inference texts. -/
theorem inference_parse_contract_witness :
    routingDecision demoRoutes "/a" (.text "mailto:test@example.com")
      = .proxyTo "mailto://" "test@example.com"
    ∧ routingDecision demoRoutes "/a" (.text "no url here")
      = fallbackDecision demoRoutes "/a" :=
  ⟨((inference_parse_contract demoRoutes "/a" "mailto:test@example.com").1
      ⟨"mailto:", "", "test@example.com", ""⟩ (by decide)).2.trans (by decide),
    (inference_parse_contract demoRoutes "/a" "no url here").2 (by decide)⟩

/-!
## Claim theorems: upstream failure handling (C4)
-/

/-- C4 fails as stated: with the inference-chosen upstream
`http://localhost:9999` unreachable, the engine does not surface a
502-class error — it makes a second forwarding attempt through the
rule-based fallback (two attempts are recorded) and the request succeeds
against the fallback upstream. -/
theorem upstream_error_retries_counterexample :
    upDemo "http://localhost:9999" = false
    ∧ (handleRequest demoRoutes "/api/x"
        (.text "http://localhost:9999/api/x") upDemo).attempts.length = 2
    ∧ (handleRequest demoRoutes "/api/x"
        (.text "http://localhost:9999/api/x") upDemo).response
      = .upstream "http://localhost:8001" "/api/x" :=
  ⟨by decide, by decide, by decide⟩

/-- C4 (amended): when the upstream chosen from a valid inference URL is
unreachable, the proxy's `onError` re-routes the request through the
rule-based fallback — a second forwarding attempt — yielding 404 when no
rule matches, a forward to the fallback target when one does, and the
proxy library's default error handling when that fallback upstream is
also down; no 502 response and no give-up-after-first-attempt occurs. -/
theorem upstream_error_falls_back (routes : List RouteConfig) (url t : String)
    (u : URLRec) (up : String → Bool) (hp : parseURL t = some u)
    (hdown : up (urlOrigin u) = false) :
    handleRequest routes url (.text t) up
      = match matchRoute url routes with
        | none => ⟨[(urlOrigin u, u.pathname ++ u.search)], .notFound⟩
        | some tg =>
          ⟨[(urlOrigin u, u.pathname ++ u.search), (tg, url)],
            if up tg then .upstream tg url else .defaultProxyError⟩ := by
  simp only [handleRequest]
  rw [hp]
  simp only [hdown, Bool.false_eq_true, if_false]
  unfold fallbackRun
  cases matchRoute url routes with
  | none => rfl
  | some tg =>
    by_cases hup : up tg = true
    · simp [hup]
    · simp [eq_false_of_ne_true hup]

/-- Witness for `upstream_error_falls_back`: concrete request with the
inference-chosen upstream down and the fallback upstream up. -/
theorem upstream_error_falls_back_witness :
    parseURL "http://localhost:9999/api/x"
      = some ⟨"http:", "localhost:9999", "/api/x", ""⟩
    ∧ upDemo "http://localhost:9999" = false
    ∧ handleRequest demoRoutes "/api/x" (.text "http://localhost:9999/api/x") upDemo
      = ⟨[("http://localhost:9999", "/api/x"), ("http://localhost:8001", "/api/x")],
          .upstream "http://localhost:8001" "/api/x"⟩ :=
  ⟨by decide, by decide,
    (upstream_error_falls_back demoRoutes "/api/x" "http://localhost:9999/api/x"
      ⟨"http:", "localhost:9999", "/api/x", ""⟩ upDemo (by decide) (by decide)).trans
      (by decide)⟩

/-!
## Claim theorems: config failure (C7), inference call (C8),
## status endpoint (C9) and its bypass (C10)
-/

/-- C7: a failed config read or extraction yields the empty route table,
and the engine still serves every request: with the empty table the
deterministic stage terminates each request with the 404 NoMatchingRoute
outcome — unless inference resolves the request to a target, which is
then the first (and only deliberate) forwarding attempt. -/
theorem config_failure_serves (url : String) (up : String → Bool) :
    parseNginxConfig none = []
    ∧ handleRequest (parseNginxConfig none) url .failure up
        = ⟨[], .notFound⟩
    ∧ (∀ t, parseURL t = none →
        handleRequest (parseNginxConfig none) url (.text t) up = ⟨[], .notFound⟩)
    ∧ (∀ t u, parseURL t = some u →
        (handleRequest (parseNginxConfig none) url (.text t) up).attempts.head?
          = some (urlOrigin u, u.pathname ++ u.search)) := by
  refine ⟨rfl, rfl, ?_, ?_⟩
  · intro t ht
    simp only [handleRequest]
    rw [ht]
    rfl
  · intro t u ht
    simp only [handleRequest]
    rw [ht]
    by_cases hup : up (urlOrigin u) = true
    · simp [hup]
    · simp [eq_false_of_ne_true hup, fallbackRun, parseNginxConfig, matchRoute]

/-- Witness for `config_failure_serves`: both inference branches at
concrete texts, against the empty table of a failed config load. -/
theorem config_failure_serves_witness :
    handleRequest (parseNginxConfig none) "/api/users" (.text "bogus") upDemo
      = ⟨[], .notFound⟩
    ∧ (handleRequest (parseNginxConfig none) "/api/users"
        (.text "http://localhost:8001/api/users") upDemo).attempts.head?
      = some ("http://localhost:8001", "/api/users") :=
  ⟨(config_failure_serves "/api/users" upDemo).2.2.1 "bogus" (by decide),
    ((config_failure_serves "/api/users" upDemo).2.2.2 "http://localhost:8001/api/users"
      ⟨"http:", "localhost:8001", "/api/users", ""⟩ (by decide)).trans (by decide)⟩

/-- C8 fails as stated: the `generateText` invocation of vercel-proxy.ts
lines 155-158 carries no abort signal and no timeout of any kind — the
inference call is not made under a bounded, configurable request
timeout. -/
theorem inference_call_no_timeout_counterexample :
    (inferenceCallArgs "").abortSignal = none := rfl

/-- C8 (amended): every invocation of the inference service passes only
the model name and the prompt; no abort signal, timeout or cancellation
mechanism is configured, so no bound on the inference stage is imposed by
the engine. -/
theorem inference_call_no_timeout (prompt : String) :
    (inferenceCallArgs prompt).abortSignal = none
    ∧ (inferenceCallArgs prompt).model = "claude-3-haiku-20240307"
    ∧ (inferenceCallArgs prompt).prompt = prompt :=
  ⟨rfl, rfl, rfl⟩

/-- C9: the status endpoint's rule list is exactly the
`path => target` formatting of the table ConfigLoader produced at
startup, no matter how many requests have been served in between (no
handler mutates the server state). -/
theorem status_reflects_startup (extracted : Option (List RouteConfig))
    (qs : List ReqInput) :
    statusSnapshot (serveAll ⟨parseNginxConfig extracted⟩ qs)
      = (parseNginxConfig extracted).map (fun r => r.path ++ " => " ++ r.target) := by
  have hone : ∀ (s : ServerState) (q : ReqInput), (serveOne s q).2 = s := by
    intro s q
    unfold serveOne
    split
    · rfl
    · rfl
  have hstate : ∀ (qs : List ReqInput) (s : ServerState), serveAll s qs = s := by
    intro qs
    induction qs with
    | nil => intro s; rfl
    | cons q qt ih =>
      intro s
      show serveAll (serveOne s q).2 qt = s
      rw [hone s q]
      exact ih s
  rw [hstate]
  rfl

/-- C10: a request bypasses the routing engine in favor of the status
endpoint exactly when its full URL string equals `/proxy-status`; in
particular `/proxy-status?verbose=1` is routed through the engine, not
served by the status endpoint. -/
theorem status_bypass_strict_equality (s : ServerState) (q : ReqInput) :
    ((∃ rs, (serveOne s q).1 = HttpResponse.statusPage rs) ↔ q.url = "/proxy-status")
    ∧ ∀ (infer : InferOutcome) (up : String → Bool),
        (serveOne s ⟨"/proxy-status?verbose=1", infer, up⟩).1
          = .engine (handleRequest s.routes "/proxy-status?verbose=1" infer up) := by
  constructor
  · constructor
    · rintro ⟨rs, hrs⟩
      by_contra hne
      unfold serveOne at hrs
      rw [if_neg hne] at hrs
      exact HttpResponse.noConfusion hrs
    · intro h
      refine ⟨statusSnapshot s, ?_⟩
      unfold serveOne
      rw [if_pos h]
  · intro infer up
    rfl
